import Mathlib

/-!
A shallow embedding of `src/reader.rs`: the `ReaderOffset` trait's three
concrete implementations (`u64`, `u32`, `usize`) and the `Reader` trait's
derived read algorithms, together with a concrete cursor backend and the
LEB128 codec modelled from the specification (their code lives outside the
given sources).

Machine integers are modelled as `Nat`/`Int` with explicit `% 2^w` where a
Rust cast can truncate.  Fallible operations return `Except Error α`; since
Rust read methods take `&mut self`, every cursor operation returns the pair
(result, final cursor state), so that a failing call's effect on the cursor
is visible in the model.
-/

namespace Gimli

/-- Modelled from the spec: the error taxonomy of section 7.  The concrete
`parser::Error` type is not among the given sources; only the kinds this
layer raises are modelled. -/
inductive Error where
  | UnexpectedEof
  | OutOfBounds
  | UnsupportedOffset
  | UnsupportedAddressSize (size : Nat)
  deriving DecidableEq

/-- The DWARF format selector (`parser::Format`), consumed by `read_word`
and `read_offset`. -/
inductive Format where
  | Dwarf32
  | Dwarf64
  deriving DecidableEq

/-! ## `impl ReaderOffset for u64` (reader.rs lines 42-82)

A `u64` value is a `Nat`; the invariant `v < 2^64` is carried as a
hypothesis where a theorem needs it. -/

/-- reader.rs 64-66: `fn from_u64(offset: u64) -> Result<Self> { Ok(offset) }`. -/
def u64_from_u64 (offset : Nat) : Except Error Nat := .ok offset

/-- reader.rs 69-71: `fn into_u64(self) -> u64 { self }`. -/
def u64_into_u64 (x : Nat) : Nat := x

/-- reader.rs 54-56: `fn from_i16(offset: i16) -> Self { offset as u64 }`.
The Rust `i16 -> u64` cast is a two's-complement reinterpretation,
i.e. reduction modulo `2^64`. -/
def u64_from_i16 (offset : Int) : Nat := (Int.emod offset (2 ^ 64)).toNat

/-- reader.rs 74-76: wrapping addition on `u64`, modular in `2^64`. -/
def u64_wrapping_add (a b : Nat) : Nat := (a + b) % 2 ^ 64

/-- reader.rs 79-81: checked subtraction on `u64`: the machine computes the
two's-complement difference and signals `None` on borrow. -/
def u64_checked_sub (a b : Nat) : Option Nat :=
  if b ≤ a then some ((a + 2 ^ 64 - b) % 2 ^ 64) else none

/-! ## `impl ReaderOffset for u32` (reader.rs lines 84-129) -/

/-- reader.rs 106-113: `let offset = offset64 as u32;
if offset as u64 == offset64 { Ok(offset) } else { Err(UnsupportedOffset) }`.
The `u64 -> u32` cast truncates modulo `2^32`; the widening back to `u64`
is exact. -/
def u32_from_u64 (offset64 : Nat) : Except Error Nat :=
  let offset := offset64 % 2 ^ 32
  if offset = offset64 then .ok offset else .error .UnsupportedOffset

/-- reader.rs 116-118: `self as u64`, an exact widening. -/
def u32_into_u64 (x : Nat) : Nat := x

/-- reader.rs 96-98: `offset as u32` on an `i16`, a two's-complement
reinterpretation modulo `2^32`. -/
def u32_from_i16 (offset : Int) : Nat := (Int.emod offset (2 ^ 32)).toNat

/-- reader.rs 121-123: wrapping addition on `u32`, modular in `2^32`. -/
def u32_wrapping_add (a b : Nat) : Nat := (a + b) % 2 ^ 32

/-- reader.rs 126-128: checked subtraction on `u32`. -/
def u32_checked_sub (a b : Nat) : Option Nat :=
  if b ≤ a then some ((a + 2 ^ 32 - b) % 2 ^ 32) else none

/-! ## `impl ReaderOffset for usize` (reader.rs lines 131-176)

`usize` has the platform's pointer width, a parameter `pointerWidth` here
(at most 64 on supported platforms). -/

/-- reader.rs 153-160: `let offset = offset64 as usize;
if offset as u64 == offset64 { Ok(offset) } else { Err(UnsupportedOffset) }`.
Both casts are modelled as the modular reductions they are. -/
def usize_from_u64 (pointerWidth : Nat) (offset64 : Nat) : Except Error Nat :=
  let offset := offset64 % 2 ^ pointerWidth
  if offset % 2 ^ 64 = offset64 then .ok offset else .error .UnsupportedOffset

/-- reader.rs 163-165: `self as u64`, truncating when the pointer width
exceeds 64 bits. -/
def usize_into_u64 (x : Nat) : Nat := x % 2 ^ 64

/-- reader.rs 143-145: `offset as usize` on an `i16`. -/
def usize_from_i16 (pointerWidth : Nat) (offset : Int) : Nat :=
  (Int.emod offset (2 ^ pointerWidth)).toNat

/-- reader.rs 168-170: wrapping addition on `usize`. -/
def usize_wrapping_add (pointerWidth a b : Nat) : Nat := (a + b) % 2 ^ pointerWidth

/-- reader.rs 173-175: checked subtraction on `usize`. -/
def usize_checked_sub (pointerWidth a b : Nat) : Option Nat :=
  if b ≤ a then some ((a + 2 ^ pointerWidth - b) % 2 ^ pointerWidth) else none

/-! ## A concrete cursor backend

The `Reader` trait (reader.rs 182-277) only declares its primitives; no
backend is among the given sources, so the primitives are modelled from the
specification's cursor contract (spec sections 3 and 4.2): a cursor is a
view over the remaining suffix of an immutable byte buffer, together with
an endianness tag. -/

/-- The byte-order capability attached to a cursor (spec section 3,
"Endianness tag"). -/
inductive Endian where
  | little
  | big
  deriving DecidableEq

/-- Modelled from the spec: a concrete cursor (spec "Cursor", the trait
`Reader`): an endianness tag plus the remaining bytes of the view.  Bytes
are `Nat`s; a well-formed buffer has each byte below 256. -/
structure Reader where
  endian : Endian
  bytes : List Nat
  deriving DecidableEq

/-- reader.rs 193: `fn len(&self) -> Self::Offset`, the number of bytes
remaining. -/
def Reader.len (r : Reader) : Nat := r.bytes.length

/-- The unsigned integer a byte group denotes in big-endian order. -/
def beValue (bs : List Nat) : Nat := bs.foldl (fun acc b => acc * 256 + b) 0

/-- Modelled from the spec: the endianness capability interprets a
fixed-size byte group as an unsigned integer in the tagged byte order
(spec section 2, "Endianness capability"). -/
def endianValue : Endian → List Nat → Nat
  | .little, bs => beValue bs.reverse
  | .big, bs => beValue bs

/-- Modelled from the spec: the fixed-width primitive reads (spec section
4.2): consume exactly `width` bytes, interpret them by the attached
endianness tag, fail with "unexpected end of input" when fewer bytes
remain (leaving the cursor untouched). -/
def readFixed (width : Nat) (r : Reader) : Except Error Nat × Reader :=
  if width ≤ r.bytes.length then
    (.ok (endianValue r.endian (r.bytes.take width)),
     { r with bytes := r.bytes.drop width })
  else (.error .UnexpectedEof, r)

/-- reader.rs 256: `fn read_u8(&mut self) -> Result<u8>`. -/
def read_u8 (r : Reader) : Except Error Nat × Reader := readFixed 1 r

/-- reader.rs 262: `fn read_u16(&mut self) -> Result<u16>`. -/
def read_u16 (r : Reader) : Except Error Nat × Reader := readFixed 2 r

/-- reader.rs 268: `fn read_u32(&mut self) -> Result<u32>`. -/
def read_u32 (r : Reader) : Except Error Nat × Reader := readFixed 4 r

/-- reader.rs 274: `fn read_u64(&mut self) -> Result<u64>`. -/
def read_u64 (r : Reader) : Except Error Nat × Reader := readFixed 8 r

/-- Index of the first occurrence of `byte` in a byte list, if any. -/
def findIndex (byte : Nat) : List Nat → Option Nat
  | [] => none
  | x :: rest =>
    if x = byte then some 0 else (findIndex byte rest).map (fun i => i + 1)

/-- Modelled from the spec: `find(byte)` (reader.rs 213, spec section 4.2)
scans forward without consuming, returning the offset of the first match;
fails with "unexpected end of input" if the byte does not occur. -/
def find (byte : Nat) (r : Reader) : Except Error Nat × Reader :=
  match findIndex byte r.bytes with
  | some i => (.ok i, r)
  | none => (.error .UnexpectedEof, r)

/-- Modelled from the spec: `skip(len)` (reader.rs 216, spec sections 4.2
and 7) discards `len` bytes from the front; fails with "out of bounds"
when `len` exceeds the remaining length, consuming nothing. -/
def skip (len : Nat) (r : Reader) : Except Error Unit × Reader :=
  if len ≤ r.bytes.length then (.ok (), { r with bytes := r.bytes.drop len })
  else (.error .OutOfBounds, r)

/-- Modelled from the spec: `split(len)` (reader.rs 222, spec sections 4.2
and 7) carves a new cursor over the next `len` bytes and advances `self`
past them; fails with "out of bounds" on insufficient remaining bytes. -/
def split (len : Nat) (r : Reader) : Except Error Reader × Reader :=
  if len ≤ r.bytes.length then
    (.ok { r with bytes := r.bytes.take len },
     { r with bytes := r.bytes.drop len })
  else (.error .OutOfBounds, r)

/-! ## Derived read algorithms (reader.rs 280-319)

These default methods are translated from the source; each `?` early
return propagates the error together with the cursor state at that
point. -/

/-- reader.rs 280-285:
`let idx = self.find(0)?; let val = self.split(idx)?;
self.skip(Self::Offset::from_u8(1))?; Ok(val)`. -/
def read_null_terminated_slice (r : Reader) : Except Error Reader × Reader :=
  match find 0 r with
  | (.error e, r1) => (.error e, r1)
  | (.ok idx, r1) =>
    match split idx r1 with
    | (.error e, r2) => (.error e, r2)
    | (.ok val, r2) =>
      match skip 1 r2 with
      | (.error e, r3) => (.error e, r3)
      | (.ok _, r3) => (.ok val, r3)

/-- reader.rs 298-306: dispatch on the declared address size; the `as u64`
widenings are exact, hence the identity here. -/
def read_address (address_size : Nat) (r : Reader) : Except Error Nat × Reader :=
  match address_size with
  | 1 => read_u8 r
  | 2 => read_u16 r
  | 4 => read_u32 r
  | 8 => read_u64 r
  | otherwise => (.error (.UnsupportedAddressSize otherwise), r)

/-- reader.rs 309-314: `Dwarf32` reads a `u32` widened to `u64`, `Dwarf64`
reads a `u64`; the widening is exact, hence the identity here. -/
def read_word (format : Format) (r : Reader) : Except Error Nat × Reader :=
  match format with
  | .Dwarf32 => read_u32 r
  | .Dwarf64 => read_u64 r

/-- reader.rs 317-319:
`self.read_word(format).and_then(Self::Offset::from_u64)`, with the
offset type's `from_u64` passed explicitly. -/
def read_offset (fromU64 : Nat → Except Error Nat) (format : Format)
    (r : Reader) : Except Error Nat × Reader :=
  match read_word format r with
  | (.ok v, r1) => (fromU64 v, r1)
  | (.error e, r1) => (.error e, r1)

/-! ## LEB128 (reader.rs 288-295 delegate to the `leb128` module)

The `leb128` module is not among the given sources; reader and writer are
modelled from the specification (spec section 4.3 and the glossary): 7
payload bits per byte, continuation bit `0x80`, the signed reader
sign-extending from the sign bit of the last payload byte. -/

/-- Modelled from the spec: the unsigned LEB128 read loop, accumulating 7
bits of payload per byte until the continuation bit is clear; fails with
"unexpected end of input" when the bytes run out first. -/
def uleb128ReadAux (shift acc : Nat) : List Nat → Except Error Nat × List Nat
  | [] => (.error .UnexpectedEof, [])
  | byte :: rest =>
    let acc2 := acc + byte % 128 * 2 ^ shift
    if byte < 128 then (.ok acc2, rest)
    else uleb128ReadAux (shift + 7) acc2 rest

/-- reader.rs 288-290: `leb128::read::unsigned(self)`. -/
def read_uleb128 (r : Reader) : Except Error Nat × Reader :=
  match uleb128ReadAux 0 0 r.bytes with
  | (res, rest) => (res, { r with bytes := rest })

/-- Modelled from the spec: the signed LEB128 read loop; like the unsigned
one, but the final value is sign-extended when bit 6 of the last payload
byte is set. -/
def sleb128ReadAux (shift : Nat) (acc : Int) :
    List Nat → Except Error Int × List Nat
  | [] => (.error .UnexpectedEof, [])
  | byte :: rest =>
    let acc2 := acc + Int.ofNat (byte % 128) * 2 ^ shift
    if byte < 128 then
      (.ok (if 64 ≤ byte % 128 then acc2 - 2 ^ (shift + 7) else acc2), rest)
    else sleb128ReadAux (shift + 7) acc2 rest

/-- reader.rs 293-295: `leb128::read::signed(self)`. -/
def read_sleb128 (r : Reader) : Except Error Int × Reader :=
  match sleb128ReadAux 0 0 r.bytes with
  | (res, rest) => (res, { r with bytes := rest })

/-- Modelled from the spec: the unsigned LEB128 writer (glossary: 7 payload
bits per byte plus a continuation bit, least-significant group first).
The fuel bounds the byte count; 10 bytes cover every 64-bit value. -/
def uleb128EncodeAux : Nat → Nat → List Nat
  | 0, _ => []
  | fuel + 1, n =>
    if n < 128 then [n]
    else (n % 128 + 128) :: uleb128EncodeAux fuel (n / 128)

/-- Unsigned LEB128 encoding of a 64-bit value. -/
def uleb128Encode (n : Nat) : List Nat := uleb128EncodeAux 10 n

/-- Modelled from the spec: the signed LEB128 writer: emit the low 7 bits,
arithmetically shift right by 7 (floor division by 128), and stop once the
remaining value is the pure sign extension of the byte just emitted. -/
def sleb128EncodeAux : Nat → Int → List Nat
  | 0, _ => []
  | fuel + 1, v =>
    let byte := (Int.emod v 128).toNat
    let v2 := Int.fdiv v 128
    if (v2 = 0 ∧ byte < 64) ∨ (v2 = -1 ∧ 64 ≤ byte) then [byte]
    else (byte + 128) :: sleb128EncodeAux fuel v2

/-- Signed LEB128 encoding of a 64-bit value. -/
def sleb128Encode (v : Int) : List Nat := sleb128EncodeAux 12 v

end Gimli

namespace Gimli

/-! ## Helper lemmas -/

/-- `v % 2^w = v` exactly when `v` fits in `w` bits. -/
theorem mod_two_pow_eq_self_iff (w v : Nat) : v % 2 ^ w = v ↔ v < 2 ^ w := by
  constructor
  · intro h
    calc v = v % 2 ^ w := h.symm
    _ < 2 ^ w := Nat.mod_lt _ (Nat.two_pow_pos w)
  · exact Nat.mod_eq_of_lt

/-- Two's-complement subtraction with an explicit borrow check computes the
exact difference when no borrow occurs. -/
theorem twosComplementSub (N a b : Nat) (ha : a < N) (hb : b ≤ a) :
    (a + N - b) % N = a - b := by
  have h1 : a + N - b = a - b + N := by omega
  rw [h1, Nat.add_mod_right, Nat.mod_eq_of_lt (by omega)]

/-- Evaluation of `u32_from_u64`: the truncate-and-compare check accepts
exactly the values below `2^32` and is the identity on them. -/
theorem u32_from_u64_eq (v : Nat) :
    u32_from_u64 v = if v < 2 ^ 32 then .ok v else .error .UnsupportedOffset := by
  simp only [u32_from_u64]
  by_cases h : v < 2 ^ 32
  · rw [if_pos ((mod_two_pow_eq_self_iff 32 v).mpr h), if_pos h, Nat.mod_eq_of_lt h]
  · rw [if_neg (fun hc => h ((mod_two_pow_eq_self_iff 32 v).mp hc)), if_neg h]

/-- Evaluation of `usize_from_u64` for a pointer width of at most 64
bits. -/
theorem usize_from_u64_eq (pointerWidth v : Nat) (hP : pointerWidth ≤ 64) :
    usize_from_u64 pointerWidth v =
      if v < 2 ^ pointerWidth then .ok v else .error .UnsupportedOffset := by
  have hpow : 2 ^ pointerWidth ≤ 2 ^ 64 := Nat.pow_le_pow_right (by norm_num) hP
  have hsz : v % 2 ^ pointerWidth % 2 ^ 64 = v % 2 ^ pointerWidth :=
    Nat.mod_eq_of_lt (lt_of_lt_of_le (Nat.mod_lt _ (Nat.two_pow_pos _)) hpow)
  simp only [usize_from_u64, hsz]
  by_cases h : v < 2 ^ pointerWidth
  · rw [if_pos ((mod_two_pow_eq_self_iff _ v).mpr h), if_pos h, Nat.mod_eq_of_lt h]
  · rw [if_neg (fun hc => h ((mod_two_pow_eq_self_iff _ v).mp hc)), if_neg h]

/-- A fixed-width primitive read either succeeds or fails with
"unexpected end of input" leaving the cursor untouched. -/
theorem readFixed_cases (w : Nat) (r : Reader) :
    (∃ v r1, readFixed w r = (.ok v, r1)) ∨
      readFixed w r = (.error .UnexpectedEof, r) := by
  rw [readFixed]
  by_cases h : w ≤ r.bytes.length
  · rw [if_pos h]; exact .inl ⟨_, _, rfl⟩
  · rw [if_neg h]; exact .inr rfl

/-- `findIndex` returns `some k` when position `k` holds the first
occurrence of the byte. -/
theorem findIndex_eq_some (byte : Nat) :
    ∀ (l : List Nat) (k : Nat), l[k]? = some byte →
      (∀ i, i < k → l[i]? ≠ some byte) → findIndex byte l = some k := by
  intro l
  induction l with
  | nil => intro k hk _; simp at hk
  | cons x rest ih =>
    intro k hk hfirst
    cases k with
    | zero =>
      simp only [List.getElem?_cons_zero, Option.some.injEq] at hk
      simp [findIndex, hk]
    | succ k =>
      have hx : ¬ x = byte := by
        intro hxe
        exact hfirst 0 (Nat.succ_pos k) (by simp [hxe])
      have hr : rest[k]? = some byte := by simpa using hk
      have hf : ∀ i, i < k → rest[i]? ≠ some byte := by
        intro i hi
        have h2 := hfirst (i + 1) (by omega)
        simpa using h2
      simp [findIndex, hx, ih k hr hf]

/-- `findIndex` returns `none` when the byte does not occur. -/
theorem findIndex_eq_none (byte : Nat) :
    ∀ l : List Nat, (∀ b ∈ l, b ≠ byte) → findIndex byte l = none := by
  intro l
  induction l with
  | nil => intro _; rfl
  | cons x rest ih =>
    intro h
    have hx : ¬ x = byte := h x (by simp)
    simp [findIndex, hx, ih (fun b hb => h b (by simp [hb]))]

/-! ## The claims -/

/-- C1: for each supported offset width (32-bit, 64-bit, and a native
pointer width of at most 64 bits) and each 64-bit value `v`, `from_u64`
succeeds iff `v` fits exactly in the target width, and on success
`into_u64` recovers `v`. -/
theorem from_u64_roundtrip (pointerWidth v : Nat) (hv : v < 2 ^ 64)
    (hP : pointerWidth ≤ 64) :
    ((∃ x, u32_from_u64 v = .ok x) ↔ v < 2 ^ 32) ∧
    (∀ x, u32_from_u64 v = .ok x → u32_into_u64 x = v) ∧
    ((∃ x, u64_from_u64 v = .ok x) ↔ v < 2 ^ 64) ∧
    (∀ x, u64_from_u64 v = .ok x → u64_into_u64 x = v) ∧
    ((∃ x, usize_from_u64 pointerWidth v = .ok x) ↔ v < 2 ^ pointerWidth) ∧
    (∀ x, usize_from_u64 pointerWidth v = .ok x → usize_into_u64 x = v) := by
  refine ⟨?_, ?_, ?_, ?_, ?_, ?_⟩
  · rw [u32_from_u64_eq]
    constructor
    · rintro ⟨x, hx⟩
      by_contra hlt
      rw [if_neg hlt] at hx
      cases hx
    · intro h
      exact ⟨v, if_pos h⟩
  · intro x hx
    rw [u32_from_u64_eq] at hx
    by_cases h : v < 2 ^ 32
    · rw [if_pos h] at hx
      injection hx with h1
      rw [u32_into_u64, ← h1]
    · rw [if_neg h] at hx
      cases hx
  · exact ⟨fun _ => hv, fun _ => ⟨v, rfl⟩⟩
  · intro x hx
    rw [u64_from_u64] at hx
    injection hx with h1
    rw [u64_into_u64, ← h1]
  · rw [usize_from_u64_eq pointerWidth v hP]
    constructor
    · rintro ⟨x, hx⟩
      by_contra hlt
      rw [if_neg hlt] at hx
      cases hx
    · intro h
      exact ⟨v, if_pos h⟩
  · intro x hx
    rw [usize_from_u64_eq pointerWidth v hP] at hx
    by_cases h : v < 2 ^ pointerWidth
    · rw [if_pos h] at hx
      injection hx with h1
      rw [usize_into_u64, ← h1, Nat.mod_eq_of_lt hv]
    · rw [if_neg h] at hx
      cases hx

/-- Witness for C1 at the 32-bit boundary value `0xFFFFFFFF` and pointer
width 32. -/
theorem from_u64_roundtrip_witness :
    (∃ x, u32_from_u64 0xFFFFFFFF = .ok x) ↔ 0xFFFFFFFF < 2 ^ 32 :=
  (from_u64_roundtrip 32 0xFFFFFFFF (by norm_num) (by norm_num)).1

/-- C2: `read_address` with address size 1, 2, 4 or 8 equals the
corresponding fixed-width primitive read (whose widening to 64 bits is
exact), and every other address size fails with `UnsupportedAddressSize`
carrying exactly that size, leaving the cursor untouched. -/
theorem read_address_spec (r : Reader) (address_size : Nat) :
    read_address address_size r =
      if address_size = 1 then read_u8 r
      else if address_size = 2 then read_u16 r
      else if address_size = 4 then read_u32 r
      else if address_size = 8 then read_u64 r
      else (.error (.UnsupportedAddressSize address_size), r) := by
  match address_size with
  | 0 => rfl
  | 1 => rfl
  | 2 => rfl
  | 3 => rfl
  | 4 => rfl
  | 5 => rfl
  | 6 => rfl
  | 7 => rfl
  | 8 => rfl
  | n + 9 => rfl

/-- C3: when the cursor's remaining bytes have their first zero at
position `k`, `read_null_terminated_slice` returns the sub-cursor over
exactly the first `k` bytes and advances the cursor past `k + 1` bytes;
with no zero byte it fails with "unexpected end of input" and no slice. -/
theorem read_null_terminated_slice_spec (r : Reader) (k : Nat) :
    ((r.bytes[k]? = some 0 ∧ ∀ i, i < k → r.bytes[i]? ≠ some 0) →
      read_null_terminated_slice r =
        (.ok { r with bytes := r.bytes.take k },
         { r with bytes := r.bytes.drop (k + 1) })) ∧
    ((∀ b ∈ r.bytes, b ≠ 0) →
      read_null_terminated_slice r = (.error .UnexpectedEof, r)) := by
  constructor
  · rintro ⟨hk, hfirst⟩
    have hfind : findIndex 0 r.bytes = some k := findIndex_eq_some 0 r.bytes k hk hfirst
    have hklt : k < r.bytes.length := by
      by_contra hge
      rw [List.getElem?_eq_none (by omega)] at hk
      cases hk
    have hlen : 1 ≤ r.bytes.length - k := by omega
    have hdd : (r.bytes.drop k).drop 1 = r.bytes.drop (k + 1) := by
      rw [List.drop_drop, Nat.add_comm]
    simp [read_null_terminated_slice, find, hfind, split, skip,
      le_of_lt hklt, hlen, hdd]
  · intro h
    have hfind : findIndex 0 r.bytes = none := findIndex_eq_none 0 r.bytes h
    simp [read_null_terminated_slice, find, hfind]

/-- C4: `read_offset` reads a 4-byte (`Dwarf32`) or 8-byte (`Dwarf64`)
unsigned integer exactly as `read_word` does, then narrows it through the
offset type's `from_u64`, failing with `UnsupportedOffset` exactly when
the value does not fit the configured offset width; a failing `read_word`
propagates its own error. -/
theorem read_offset_spec (pointerWidth : Nat) (r : Reader) (format : Format) :
    read_word .Dwarf32 r = read_u32 r ∧
    read_word .Dwarf64 r = read_u64 r ∧
    (∀ v r1, read_word format r = (.ok v, r1) →
      read_offset u32_from_u64 format r =
        ((if v < 2 ^ 32 then .ok v else .error .UnsupportedOffset), r1) ∧
      read_offset u64_from_u64 format r = (.ok v, r1) ∧
      (pointerWidth ≤ 64 →
        read_offset (usize_from_u64 pointerWidth) format r =
          ((if v < 2 ^ pointerWidth then .ok v else .error .UnsupportedOffset), r1))) ∧
    (∀ e r1, read_word format r = (.error e, r1) →
      read_offset u32_from_u64 format r = (.error e, r1) ∧
      read_offset u64_from_u64 format r = (.error e, r1) ∧
      read_offset (usize_from_u64 pointerWidth) format r = (.error e, r1)) := by
  refine ⟨rfl, rfl, ?_, ?_⟩
  · intro v r1 h
    refine ⟨?_, ?_, ?_⟩
    · simp only [read_offset, h, u32_from_u64_eq]
    · simp only [read_offset, h, u64_from_u64]
    · intro hP
      simp only [read_offset, h, usize_from_u64_eq pointerWidth _ hP]
  · intro e r1 h
    refine ⟨?_, ?_, ?_⟩ <;> simp only [read_offset, h]

/-- C5: LEB128 encode/decode round-trips through the reader's
variable-length read algorithms at the boundary values: 0, 127, 128 and
`2^63 - 1` for the unsigned form, and -1, -64, -65 and `-2^63` for the
signed form. -/
theorem leb128_roundtrip :
    (read_uleb128 ⟨.little, uleb128Encode 0⟩).1 = .ok 0 ∧
    (read_uleb128 ⟨.little, uleb128Encode 127⟩).1 = .ok 127 ∧
    (read_uleb128 ⟨.little, uleb128Encode 128⟩).1 = .ok 128 ∧
    (read_uleb128 ⟨.little, uleb128Encode (2 ^ 63 - 1)⟩).1 = .ok (2 ^ 63 - 1) ∧
    (read_sleb128 ⟨.little, sleb128Encode (-1)⟩).1 = .ok (-1) ∧
    (read_sleb128 ⟨.little, sleb128Encode (-64)⟩).1 = .ok (-64) ∧
    (read_sleb128 ⟨.little, sleb128Encode (-65)⟩).1 = .ok (-65) ∧
    (read_sleb128 ⟨.little, sleb128Encode (-(2 ^ 63))⟩).1 = .ok (-(2 ^ 63)) :=
  ⟨rfl, rfl, rfl, rfl, rfl, rfl, rfl, rfl⟩

/-- C6: `skip` with a length exceeding the remaining length fails with
"out of bounds" and leaves the cursor, hence its remaining length,
unchanged. -/
theorem skip_out_of_bounds (r : Reader) (n : Nat) (h : r.len < n) :
    skip n r = (.error .OutOfBounds, r) ∧ (skip n r).2.len = r.len := by
  have hn : ¬ n ≤ r.bytes.length := Nat.not_le.mpr h
  simp [skip, hn]

/-- Witness for C6: skipping one byte of an exhausted cursor. -/
theorem skip_out_of_bounds_witness :
    skip 1 ⟨.little, []⟩ = (.error .OutOfBounds, ⟨.little, []⟩) ∧
      (skip 1 ⟨.little, []⟩).2.len = Reader.len ⟨.little, []⟩ :=
  skip_out_of_bounds ⟨.little, []⟩ 1 (by decide)

/-- C7: for each supported offset width, `checked_sub` on in-range values
returns `none` exactly when the mathematical difference would be negative
and otherwise the exact difference — it never wraps. -/
theorem checked_sub_spec (pointerWidth a b : Nat) :
    (a < 2 ^ 64 →
      (b ≤ a → u64_checked_sub a b = some (a - b)) ∧
      (a < b → u64_checked_sub a b = none)) ∧
    (a < 2 ^ 32 →
      (b ≤ a → u32_checked_sub a b = some (a - b)) ∧
      (a < b → u32_checked_sub a b = none)) ∧
    (a < 2 ^ pointerWidth →
      (b ≤ a → usize_checked_sub pointerWidth a b = some (a - b)) ∧
      (a < b → usize_checked_sub pointerWidth a b = none)) := by
  refine ⟨fun ha => ⟨fun hb => ?_, fun hlt => ?_⟩,
    fun ha => ⟨fun hb => ?_, fun hlt => ?_⟩,
    fun ha => ⟨fun hb => ?_, fun hlt => ?_⟩⟩
  · rw [u64_checked_sub, if_pos hb, twosComplementSub _ _ _ ha hb]
  · rw [u64_checked_sub, if_neg (Nat.not_le.mpr hlt)]
  · rw [u32_checked_sub, if_pos hb, twosComplementSub _ _ _ ha hb]
  · rw [u32_checked_sub, if_neg (Nat.not_le.mpr hlt)]
  · rw [usize_checked_sub, if_pos hb, twosComplementSub _ _ _ ha hb]
  · rw [usize_checked_sub, if_neg (Nat.not_le.mpr hlt)]

/-- C8: for each supported offset width `W`, `wrapping_add` is a total
function computing `a + b` modulo `2^W`, and its result is an in-range
offset value. -/
theorem wrapping_add_spec (pointerWidth a b : Nat) :
    u64_wrapping_add a b = (a + b) % 2 ^ 64 ∧ u64_wrapping_add a b < 2 ^ 64 ∧
    u32_wrapping_add a b = (a + b) % 2 ^ 32 ∧ u32_wrapping_add a b < 2 ^ 32 ∧
    usize_wrapping_add pointerWidth a b = (a + b) % 2 ^ pointerWidth ∧
    usize_wrapping_add pointerWidth a b < 2 ^ pointerWidth :=
  ⟨rfl, Nat.mod_lt _ (Nat.two_pow_pos _), rfl, Nat.mod_lt _ (Nat.two_pow_pos _),
    rfl, Nat.mod_lt _ (Nat.two_pow_pos _)⟩

/-- C9: `from_i16` is total, and a negative input is reinterpreted in
two's complement at the target width: `into_u64 (from_i16 x) = x mod 2^W`,
so the 32-bit and 64-bit offset types disagree on the same negative input
(at -1: `0xFFFFFFFF` versus `0xFFFFFFFFFFFFFFFF`). -/
theorem from_i16_twos_complement (pointerWidth : Nat) (x : Int)
    (hx : -(2 ^ 15) ≤ x ∧ x < 2 ^ 15)
    (hP : 16 ≤ pointerWidth ∧ pointerWidth ≤ 64) :
    u64_into_u64 (u64_from_i16 x) = (Int.emod x (2 ^ 64)).toNat ∧
    u32_into_u64 (u32_from_i16 x) = (Int.emod x (2 ^ 32)).toNat ∧
    usize_into_u64 (usize_from_i16 pointerWidth x) =
      (Int.emod x (2 ^ pointerWidth)).toNat ∧
    u64_into_u64 (u64_from_i16 (-1)) = 0xFFFFFFFFFFFFFFFF ∧
    u32_into_u64 (u32_from_i16 (-1)) = 0xFFFFFFFF ∧
    u32_into_u64 (u32_from_i16 (-1)) ≠ u64_into_u64 (u64_from_i16 (-1)) := by
  refine ⟨rfl, rfl, ?_, by decide, by decide, by decide⟩
  have hnn : 0 ≤ Int.emod x (2 ^ pointerWidth) := Int.emod_nonneg x (by positivity)
  have hlt : Int.emod x (2 ^ pointerWidth) < 2 ^ pointerWidth :=
    Int.emod_lt_of_pos x (by positivity)
  have hle : (2 : Int) ^ pointerWidth ≤ 2 ^ 64 := by
    have h2 : (2 : Nat) ^ pointerWidth ≤ 2 ^ 64 :=
      Nat.pow_le_pow_right (by norm_num) hP.2
    exact_mod_cast h2
  have hbound : (Int.emod x (2 ^ pointerWidth)).toNat < 2 ^ 64 := by
    omega
  rw [usize_into_u64, usize_from_i16]
  exact Nat.mod_eq_of_lt hbound

/-- Witness for C9 at `x = -1` and pointer width 32. -/
theorem from_i16_twos_complement_witness :
    u64_into_u64 (u64_from_i16 (-1)) = 0xFFFFFFFFFFFFFFFF :=
  (from_i16_twos_complement 32 (-1) (by norm_num) (by norm_num)).2.2.2.1

/-- C10: the 64-bit offset type's `from_u64` always succeeds with the
identity, so `read_offset` at that type can never fail with
`UnsupportedOffset`: any failure is the underlying fixed-width read's
"unexpected end of input". -/
theorem read_offset_u64_never_unsupported (r : Reader) (format : Format) (v : Nat) :
    u64_from_u64 v = .ok v ∧
    (∀ e, (read_offset u64_from_u64 format r).1 = .error e →
      e = .UnexpectedEof ∧ (read_word format r).1 = .error e) ∧
    (∀ r1, read_offset u64_from_u64 format r ≠ (.error .UnsupportedOffset, r1)) := by
  have hword : (∃ v r1, read_word format r = (.ok v, r1)) ∨
      read_word format r = (.error .UnexpectedEof, r) := by
    cases format
    · exact readFixed_cases 4 r
    · exact readFixed_cases 8 r
  refine ⟨rfl, ?_, ?_⟩
  · intro e he
    rcases hword with ⟨w, r1, hw⟩ | hw
    · simp only [read_offset, hw, u64_from_u64] at he
      cases he
    · simp only [read_offset, hw] at he
      injection he with h1
      exact ⟨h1.symm, by rw [hw, ← h1]⟩
  · intro r1 hcontra
    rcases hword with ⟨w, r2, hw⟩ | hw
    · simp [read_offset, hw, u64_from_u64] at hcontra
    · simp [read_offset, hw] at hcontra

end Gimli
